import Mathlib

/-!
# Verification of the CFG builder in `cfg_visualization.py`

Shallow embedding of the control-flow-graph builder
(`CFGBuilder(ast.NodeVisitor)` in `src/cfg_visualization.py`) and of the
pieces of its library substrate that determine its behaviour:

* `networkx.DiGraph` (a *simple* directed graph: at most one edge per
  ordered pair of nodes; `add_edge` silently inserts missing endpoint
  nodes, and re-adding an existing edge overwrites its attributes);
* `ast.NodeVisitor.generic_visit` (the dispatch fallback for statement
  kinds with no `visit_<Kind>` method: it creates nothing itself and
  simply visits all child nodes, so nested statements of recognized
  kinds are visited in order);
* the `try: ast.parse(code) / except SyntaxError` wrapper in `build`.

Statements are embedded as the abstract-syntax shapes the builder can
distinguish: assignments, bare expressions, `if`, `while`, and an
opaque "other" kind carrying its nested statement list (the only part
of an unhandled node that the visitor fallback can react to).
Expression subtrees never create graph structure (there is no
`visit_Name` etc.), so they are represented by their `ast.unparse`
rendering, a plain string.
-/

/-- Attributes attached to a graph node by `new_node`
(`label`, `shape`, `fillcolor`, `style`). -/
structure NodeData where
  label : String
  shape : String
  fillcolor : String
  style : String
deriving Repr, DecidableEq

/-- `networkx.DiGraph`: insertion-ordered nodes keyed by id (a node
inserted implicitly by `add_edge` has no attribute dict, modelled as
`none`), and insertion-ordered edges, at most one per ordered pair,
carrying their `label` attribute. -/
structure DiGraph where
  nodes : List (String × Option NodeData)
  edges : List (String × String × String)
deriving Repr, DecidableEq

def DiGraph.empty : DiGraph := ⟨[], []⟩

/-- `DiGraph.add_node(id, **attrs)`: updates the attributes in place if
the id is already present, otherwise appends the node. -/
def DiGraph.add_node (g : DiGraph) (id : String) (d : NodeData) : DiGraph :=
  if g.nodes.any (fun p => p.1 = id) then
    { g with nodes := g.nodes.map (fun p => if p.1 = id then (id, some d) else p) }
  else
    { g with nodes := g.nodes ++ [(id, some d)] }

/-- The implicit node insertion performed by `DiGraph.add_edge` for an
endpoint that is not yet in the graph (it gets an empty attribute dict). -/
def DiGraph.ensureNode (g : DiGraph) (id : String) : DiGraph :=
  if g.nodes.any (fun p => p.1 = id) then g
  else { g with nodes := g.nodes ++ [(id, none)] }

/-- `DiGraph.add_edge(u, v, label=l)`: inserts missing endpoints, then
either overwrites the attributes of an existing `(u, v)` edge in place
or appends a new edge. -/
def DiGraph.add_edge (g : DiGraph) (u v lbl : String) : DiGraph :=
  let g' := (g.ensureNode u).ensureNode v
  if g'.edges.any (fun e => e.1 = u ∧ e.2.1 = v) then
    { g' with edges := g'.edges.map (fun e => if e.1 = u ∧ e.2.1 = v then (u, v, lbl) else e) }
  else
    { g' with edges := g'.edges ++ [(u, v, lbl)] }

/-- `DiGraph.number_of_nodes()`. -/
def DiGraph.number_of_nodes (g : DiGraph) : Nat := g.nodes.length

/-- `DiGraph.number_of_edges()`. -/
def DiGraph.number_of_edges (g : DiGraph) : Nat := g.edges.length

/-- `DiGraph.out_degree(id)`. -/
def DiGraph.out_degree (g : DiGraph) (id : String) : Nat :=
  (g.edges.filter (fun e => e.1 = id)).length

/-- `DiGraph.in_degree(id)`. -/
def DiGraph.in_degree (g : DiGraph) (id : String) : Nat :=
  (g.edges.filter (fun e => e.2.1 = id)).length

/-- Number of nodes of `g` carrying exactly the attribute record `d`. -/
def DiGraph.countWith (g : DiGraph) (d : NodeData) : Nat :=
  (g.nodes.filter (fun p => p.2 = some d)).length

/-- The cyclomatic-complexity expression `e - n + 2` computed by the
display layer from the finished graph. -/
def cyclomaticComplexity (g : DiGraph) : Int :=
  (g.number_of_edges : Int) - (g.number_of_nodes : Int) + 2

/-- Decimal digit character, as produced by Python's string formatting. -/
def digitChar (d : Nat) : Char := Char.ofNat (48 + d)

/-- Fuel-driven most-significant-first decimal rendering. -/
def decimalChars : Nat → Nat → List Char
  | 0, _ => []
  | fuel + 1, n =>
      if n = 0 then []
      else decimalChars fuel (n / 10) ++ [digitChar (n % 10)]

/-- Python's `str` on a nonnegative integer (decimal rendering). -/
def natToString (n : Nat) : String :=
  if n = 0 then "0" else ⟨decimalChars n n⟩

/-- The node identifier `f"node_{counter}"`. -/
def nodeId (n : Nat) : String := "node_" ++ natToString n

/-- The mutable state of a `CFGBuilder` instance:
`self.graph`, `self.counter`, `self.last_nodes`. -/
structure BuilderState where
  graph : DiGraph
  counter : Nat
  last_nodes : List String
deriving Repr, DecidableEq

/-- `CFGBuilder.__init__`. -/
def initState : BuilderState := ⟨DiGraph.empty, 0, []⟩

/-- `CFGBuilder.new_node(label, shape, color)`: bumps the counter,
inserts `node_<counter>` with the given style attributes, and returns
its id. -/
def new_node (s : BuilderState) (label shape color : String) : String × BuilderState :=
  let c := s.counter + 1
  let id := nodeId c
  (id, { s with counter := c,
                graph := s.graph.add_node id ⟨label, shape, color, "filled"⟩ })

/-- The `for prev in self.last_nodes: self.add_edge(prev, target, label)`
pattern shared by `build`, the sequential visitors, `visit_If` and
`visit_While`. -/
def addEdgesTo (s : BuilderState) (target lbl : String) : BuilderState :=
  { s with graph := s.last_nodes.foldl (fun g p => g.add_edge p target lbl) s.graph }

/-- Embedded statements, by the kinds `CFGBuilder` can distinguish.
`other` is any statement kind without a `visit_` method (`pass`, `for`,
`break`, `def`, ...); the visitor fallback `generic_visit` only ever
reacts to the statement lists nested inside it, carried here in field
order. -/
inductive Stmt where
  | assign (src : String)
  | expr (src : String)
  | ifStmt (test : String) (body : List Stmt) (orelse : List Stmt)
  | whileStmt (test : String) (body : List Stmt)
  | other (children : List Stmt)

/-- Common body of `visit_Assign` and `visit_Expr`: one new
default-styled node labelled `ast.unparse(node)`, an edge from every
frontier node, frontier reset to the new node. -/
def visitLinear (src : String) (s : BuilderState) : BuilderState :=
  let (curr, s1) := new_node s src "rect" "#ffffff"
  let s2 := addEdgesTo s1 curr ""
  { s2 with last_nodes := [curr] }

mutual

/-- `CFGBuilder.visit`, i.e. `ast.NodeVisitor` dispatch: `visit_Assign`,
`visit_Expr`, `visit_If`, `visit_While`, and `generic_visit` (which
creates nothing and visits nested statements in order) for every other
statement kind. -/
def visit : Stmt → BuilderState → BuilderState
  | .assign src, s => visitLinear src s
  | .expr src, s => visitLinear src s
  | .ifStmt test body orelse, s =>
      let (cond, s1) := new_node s ("if " ++ test ++ ":") "diamond" "#AED6F1"
      let s2 := addEdgesTo s1 cond ""
      let s3 := visitList body { s2 with last_nodes := [cond] }
      let if_exits := s3.last_nodes
      let s4 := { s3 with last_nodes := [cond] }
      let (s5, else_exits) :=
        if orelse.isEmpty then (s4, [cond])
        else
          let t := visitList orelse s4
          (t, t.last_nodes)
      { s5 with last_nodes := if_exits ++ else_exits }
  | .whileStmt test body, s =>
      let (cond, s1) := new_node s ("while " ++ test ++ ":") "diamond" "#F9E79F"
      let s2 := addEdgesTo s1 cond ""
      let s3 := visitList body { s2 with last_nodes := [cond] }
      let s4 := addEdgesTo s3 cond "Loop"
      { s4 with last_nodes := [cond] }
  | .other children, s => visitList children s

/-- Visiting a statement list in order (`for node in ...: self.visit(node)`). -/
def visitList : List Stmt → BuilderState → BuilderState
  | [], s => s
  | st :: rest, s => visitList rest (visit st s)

end

/-- Exceptions the parse step can raise: `SyntaxError` (caught by
`build`) or any other exception such as the `ValueError` raised for
source text containing a null byte (not caught). -/
inductive ParseExc where
  | syntaxError (msg : String)
  | valueError (msg : String)
deriving Repr, DecidableEq

/-- Outcome of `ast.parse(code)`: a module body, or a raised exception. -/
inductive ParseOutcome where
  | tree (body : List Stmt)
  | raises (e : ParseExc)

/-- `CFGBuilder.build(code)`, parametrised by the outcome of
`ast.parse(code)`.  A `SyntaxError` is caught and turned into the
`(None, "Syntax Error: ...")` return value; any other exception
escapes (`Except.error`).  On success the function returns the final
builder state together with `(self.graph, None)`. -/
def buildFrom (s : BuilderState) (p : ParseOutcome) :
    Except ParseExc (BuilderState × Option DiGraph × Option String) :=
  match p with
  | .raises (.syntaxError m) => .ok (s, none, some ("Syntax Error: " ++ m))
  | .raises (.valueError m) => .error (.valueError m)
  | .tree body =>
      let (start, s1) := new_node s "START" "ellipse" "#DAF7A6"
      let s2 := visitList body { s1 with last_nodes := [start] }
      let (stop, s3) := new_node s2 "STOP" "ellipse" "#FFC300"
      let s4 := addEdgesTo s3 stop ""
      .ok (s4, some s4.graph, none)

/-- Node attributes of the START sentinel. -/
def startData : NodeData := ⟨"START", "ellipse", "#DAF7A6", "filled"⟩

/-- Node attributes of the STOP sentinel. -/
def stopData : NodeData := ⟨"STOP", "ellipse", "#FFC300", "filled"⟩

/-! ## Decimal rendering: agreement with `Nat.digits` and injectivity -/

theorem decimalChars_eq_digits :
    ∀ fuel n : Nat, n ≤ fuel →
      decimalChars fuel n = ((Nat.digits 10 n).map digitChar).reverse := by
  intro fuel
  induction fuel with
  | zero =>
      intro n hn
      interval_cases n
      simp [decimalChars]
  | succ fuel ih =>
      intro n hn
      by_cases h0 : n = 0
      · subst h0; simp [decimalChars]
      · have hpos : 0 < n := Nat.pos_of_ne_zero h0
        have hdiv : n / 10 ≤ fuel := by
          have h1 : n / 10 < n := Nat.div_lt_self hpos (by norm_num)
          omega
        rw [decimalChars, if_neg h0, ih _ hdiv,
          Nat.digits_def' (by norm_num : (1:Nat) < 10) hpos]
        simp

theorem digitChar_inj_lt :
    ∀ d1 < 10, ∀ d2 < 10, digitChar d1 = digitChar d2 → d1 = d2 := by decide

theorem map_digitChar_inj :
    ∀ l1 l2 : List Nat, (∀ d ∈ l1, d < 10) → (∀ d ∈ l2, d < 10) →
      l1.map digitChar = l2.map digitChar → l1 = l2 := by
  intro l1
  induction l1 with
  | nil => intro l2 _ _ h; cases l2 <;> simp_all
  | cons a t ih =>
      intro l2 h1 h2 h
      cases l2 with
      | nil => simp at h
      | cons b t2 =>
          simp only [List.map_cons, List.cons.injEq] at h
          have ha : a = b :=
            digitChar_inj_lt a (h1 a (by simp)) b (h2 b (by simp)) h.1
          have ht : t = t2 :=
            ih t2 (fun d hd => h1 d (by simp [hd])) (fun d hd => h2 d (by simp [hd])) h.2
          rw [ha, ht]

theorem natToString_inj {m n : Nat} (hm : 0 < m) (hn : 0 < n)
    (h : natToString m = natToString n) : m = n := by
  unfold natToString at h
  rw [if_neg (Nat.pos_iff_ne_zero.mp hm), if_neg (Nat.pos_iff_ne_zero.mp hn)] at h
  have hdata : decimalChars m m = decimalChars n n := congrArg String.data h
  rw [decimalChars_eq_digits m m le_rfl, decimalChars_eq_digits n n le_rfl] at hdata
  have hmap := List.reverse_injective hdata
  have hdig : Nat.digits 10 m = Nat.digits 10 n :=
    map_digitChar_inj _ _
      (fun d hd => Nat.digits_lt_base (by norm_num) hd)
      (fun d hd => Nat.digits_lt_base (by norm_num) hd) hmap
  exact Nat.digits_inj_iff.mp hdig

theorem nodeId_inj {m n : Nat} (hm : 0 < m) (hn : 0 < n)
    (h : nodeId m = nodeId n) : m = n := by
  apply natToString_inj hm hn
  apply String.ext
  have hdata := congrArg String.data h
  simp only [nodeId, String.data_append] at hdata
  exact List.append_cancel_left hdata

theorem nodeId_ne {m n : Nat} (hm : 0 < m) (hn : 0 < n) (h : m ≠ n) :
    nodeId m ≠ nodeId n :=
  fun hc => h (nodeId_inj hm hn hc)

/-! ## Basic lemmas about the graph operations -/

theorem any_fst_eq_iff (l : List (String × Option NodeData)) (id : String) :
    l.any (fun p => p.1 = id) = true ↔ id ∈ l.map Prod.fst := by
  rw [List.any_eq_true]
  constructor
  · rintro ⟨p, hp, heq⟩
    exact List.mem_map.mpr ⟨p, hp, (decide_eq_true_eq.mp heq).symm ▸ rfl⟩
  · intro h
    obtain ⟨p, hp, heq⟩ := List.mem_map.mp h
    exact ⟨p, hp, decide_eq_true_eq.mpr heq⟩

theorem ensureNode_of_mem {g : DiGraph} {id : String}
    (h : id ∈ g.nodes.map Prod.fst) : g.ensureNode id = g := by
  unfold DiGraph.ensureNode
  rw [if_pos ((any_fst_eq_iff g.nodes id).mpr h)]

theorem ensureNode_edges (g : DiGraph) (id : String) :
    (g.ensureNode id).edges = g.edges := by
  unfold DiGraph.ensureNode
  split <;> rfl

theorem add_edge_nodes_of_mem {g : DiGraph} {u v lbl : String}
    (hu : u ∈ g.nodes.map Prod.fst) (hv : v ∈ g.nodes.map Prod.fst) :
    (g.add_edge u v lbl).nodes = g.nodes := by
  simp only [DiGraph.add_edge, ensureNode_of_mem hu, ensureNode_of_mem hv]
  split <;> rfl

theorem add_edge_edges_cases {g : DiGraph} {u v lbl : String} :
    ∀ e ∈ (g.add_edge u v lbl).edges, e ∈ g.edges ∨ e = (u, v, lbl) := by
  intro e he
  simp only [DiGraph.add_edge, ensureNode_edges] at he
  by_cases hc : (g.edges.any fun e => decide (e.1 = u ∧ e.2.1 = v)) = true
  · rw [if_pos hc] at he
    simp only [List.mem_map] at he
    obtain ⟨x, hx, hxe⟩ := he
    by_cases hxc : x.1 = u ∧ x.2.1 = v
    · right; rw [if_pos hxc] at hxe; exact hxe.symm
    · left; rw [if_neg hxc] at hxe; rwa [← hxe]
  · rw [if_neg hc] at he
    simpa using he

theorem mem_add_edge_self (g : DiGraph) (u v lbl : String) :
    (u, v, lbl) ∈ (g.add_edge u v lbl).edges := by
  simp only [DiGraph.add_edge, ensureNode_edges]
  by_cases hc : (g.edges.any fun e => decide (e.1 = u ∧ e.2.1 = v)) = true
  · rw [if_pos hc]
    simp only [List.any_eq_true, decide_eq_true_eq] at hc
    obtain ⟨e0, he0, hprop⟩ := hc
    exact List.mem_map.mpr ⟨e0, he0, by rw [if_pos hprop]⟩
  · rw [if_neg hc]; simp

theorem mem_add_edge_of_mem {g : DiGraph} {a b lbl : String} (u v : String)
    (h : (a, b, lbl) ∈ g.edges) :
    (a, b, lbl) ∈ (g.add_edge u v lbl).edges := by
  simp only [DiGraph.add_edge, ensureNode_edges]
  by_cases hc : (g.edges.any fun e => decide (e.1 = u ∧ e.2.1 = v)) = true
  · rw [if_pos hc]
    refine List.mem_map.mpr ⟨(a, b, lbl), h, ?_⟩
    by_cases hab : a = u ∧ b = v
    · rw [if_pos (by simpa using hab), hab.1, hab.2]
    · rw [if_neg (by simpa using hab)]
  · rw [if_neg hc]
    simp only [List.mem_append]
    left; exact h

theorem add_edge_length_of_mem {g : DiGraph} {u v lbl0 : String} (lbl : String)
    (h : (u, v, lbl0) ∈ g.edges) :
    (g.add_edge u v lbl).edges.length = g.edges.length := by
  simp only [DiGraph.add_edge, ensureNode_edges]
  rw [if_pos]
  · exact List.length_map _ _
  · simp only [List.any_eq_true, decide_eq_true_eq]
    exact ⟨(u, v, lbl0), h, rfl, rfl⟩

theorem foldl_add_edge_preserve (lbl target : String) :
    ∀ (L : List String) (g : DiGraph) (a : String),
      (a, target, lbl) ∈ g.edges →
      (a, target, lbl) ∈ (L.foldl (fun g p => g.add_edge p target lbl) g).edges := by
  intro L
  induction L with
  | nil => intro g a h; simpa using h
  | cons b t ih =>
      intro g a h
      simp only [List.foldl_cons]
      exact ih _ a (mem_add_edge_of_mem b target h)

theorem foldl_add_edge_mem (lbl target : String) :
    ∀ (L : List String) (g : DiGraph), ∀ u ∈ L,
      (u, target, lbl) ∈ (L.foldl (fun g p => g.add_edge p target lbl) g).edges := by
  intro L
  induction L with
  | nil => intro g u hu; simp at hu
  | cons a t ih =>
      intro g u hu
      rcases List.mem_cons.mp hu with h | h
      · subst h
        simp only [List.foldl_cons]
        exact foldl_add_edge_preserve lbl target t _ u (mem_add_edge_self g u target lbl)
      · exact ih (g.add_edge a target lbl) u h

theorem addEdgesTo_mem (s : BuilderState) (target lbl : String) :
    ∀ u ∈ s.last_nodes, (u, target, lbl) ∈ (addEdgesTo s target lbl).graph.edges := by
  intro u hu
  exact foldl_add_edge_mem lbl target s.last_nodes s.graph u hu

theorem foldl_add_edge_cases (lbl target : String) :
    ∀ (L : List String) (g : DiGraph) (e : String × String × String),
      e ∈ (L.foldl (fun g p => g.add_edge p target lbl) g).edges →
      e ∈ g.edges ∨ ∃ u ∈ L, e = (u, target, lbl) := by
  intro L
  induction L with
  | nil => intro g e h; left; simpa using h
  | cons a t ih =>
      intro g e h
      simp only [List.foldl_cons] at h
      rcases ih _ e h with h2 | h2
      · rcases add_edge_edges_cases e h2 with h3 | h3
        · left; exact h3
        · right; exact ⟨a, by simp, h3⟩
      · obtain ⟨u, hu, he⟩ := h2
        right; exact ⟨u, by simp [hu], he⟩

theorem foldl_add_edge_nodes (lbl target : String) :
    ∀ (L : List String) (g : DiGraph),
      target ∈ g.nodes.map Prod.fst → (∀ u ∈ L, u ∈ g.nodes.map Prod.fst) →
      (L.foldl (fun g p => g.add_edge p target lbl) g).nodes = g.nodes := by
  intro L
  induction L with
  | nil => intro g _ _; rfl
  | cons a t ih =>
      intro g htarget hmem
      simp only [List.foldl_cons]
      have hnodes : (g.add_edge a target lbl).nodes = g.nodes :=
        add_edge_nodes_of_mem (hmem a (by simp)) htarget
      rw [ih _ (by rwa [hnodes]) (fun u hu => by rw [hnodes]; exact hmem u (by simp [hu])),
        hnodes]

theorem addEdgesTo_cases (s : BuilderState) (target lbl : String) :
    ∀ e ∈ (addEdgesTo s target lbl).graph.edges,
      e ∈ s.graph.edges ∨ ∃ u ∈ s.last_nodes, e = (u, target, lbl) :=
  fun e he => foldl_add_edge_cases lbl target s.last_nodes s.graph e he

theorem addEdgesTo_nodes (s : BuilderState) (target lbl : String)
    (htarget : target ∈ s.graph.nodes.map Prod.fst)
    (hmem : ∀ u ∈ s.last_nodes, u ∈ s.graph.nodes.map Prod.fst) :
    (addEdgesTo s target lbl).graph.nodes = s.graph.nodes :=
  foldl_add_edge_nodes lbl target s.last_nodes s.graph htarget hmem

theorem addEdgesTo_counter (s : BuilderState) (target lbl : String) :
    (addEdgesTo s target lbl).counter = s.counter := rfl

theorem addEdgesTo_last_nodes (s : BuilderState) (target lbl : String) :
    (addEdgesTo s target lbl).last_nodes = s.last_nodes := rfl

theorem visitList_append (a b : List Stmt) (s : BuilderState) :
    visitList (a ++ b) s = visitList b (visitList a s) := by
  induction a generalizing s with
  | nil => rfl
  | cons x t ih =>
      show visitList (t ++ b) (visit x s) = visitList b (visitList t (visit x s))
      exact ih (visit x s)

/-! ## The branch/loop entry pattern and branch exits -/

/-- The opening moves shared by `visit_If` and `visit_While`: create the
predicate node, draw an edge to it from every node of the frontier, and
enter the body with the frontier reset to the predicate. -/
def predEntry (s : BuilderState) (label shape color : String) : BuilderState :=
  let (cond, s1) := new_node s label shape color
  let s2 := addEdgesTo s1 cond ""
  { s2 with last_nodes := [cond] }

/-- The frontier at the end of the true branch of a conditional
`if <test>: <body>` visited from state `s` (the local `if_exits` of
`visit_If`). -/
def true_exits (test : String) (body : List Stmt) (s : BuilderState) : List String :=
  (visitList body (predEntry s ("if " ++ test ++ ":") "diamond" "#AED6F1")).last_nodes

/-- The local `else_exits` of `visit_If`: the frontier at the end of the
false branch, or the predicate itself when there is no `orelse`. -/
def false_exits (test : String) (body orelse : List Stmt) (s : BuilderState) : List String :=
  if orelse.isEmpty then [nodeId (s.counter + 1)]
  else
    let st := visitList body (predEntry s ("if " ++ test ++ ":") "diamond" "#AED6F1")
    (visitList orelse { st with last_nodes := [nodeId (s.counter + 1)] }).last_nodes

theorem visit_ifStmt_frontier (test : String) (body orelse : List Stmt) (s : BuilderState) :
    (visit (.ifStmt test body orelse) s).last_nodes =
      true_exits test body s ++ false_exits test body orelse s := by
  cases orelse <;> rfl

theorem visit_whileStmt_eq (test : String) (body : List Stmt) (s : BuilderState) :
    visit (.whileStmt test body) s =
      { addEdgesTo (visitList body (predEntry s ("while " ++ test ++ ":") "diamond" "#F9E79F"))
          (nodeId (s.counter + 1)) "Loop" with
        last_nodes := [nodeId (s.counter + 1)] } := rfl

/-- The `(graph, error)` pair returned by running `build` on a fresh
builder instance, when no exception escapes it. -/
def buildOutput (p : ParseOutcome) : Option (Option DiGraph × Option String) :=
  match buildFrom initState p with
  | .ok (_, g, e) => some (g, e)
  | .error _ => none

/-! ## Concrete finished graphs used by counterexamples and examples -/

/-- The finished graph for a program whose body contributes nothing:
START and STOP joined by one unlabelled edge. -/
def emptyProgGraph : DiGraph :=
  ⟨[(nodeId 1, some startData), (nodeId 2, some stopData)],
   [(nodeId 1, nodeId 2, "")]⟩

/-- The finished graph for `while x > 0: x = x - 1`. -/
def whileProgGraph : DiGraph :=
  ⟨[(nodeId 1, some startData),
    (nodeId 2, some ⟨"while x > 0:", "diamond", "#F9E79F", "filled"⟩),
    (nodeId 3, some ⟨"x = x - 1", "rect", "#ffffff", "filled"⟩),
    (nodeId 4, some stopData)],
   [(nodeId 1, nodeId 2, ""), (nodeId 2, nodeId 3, ""),
    (nodeId 3, nodeId 2, "Loop"), (nodeId 2, nodeId 4, "")]⟩

/-! ## Claim theorems -/

/-- C1, counterexample: on the program consisting of the single
statement `pass` — an unhandled statement kind with no nested
statements — the builder creates *no* node for the statement: the
finished graph is exactly the START/STOP graph of the empty program,
with 2 nodes, none of them a default-styled node labelled "pass".
This refutes the claim that unhandled kinds get an opaque
unparse-labelled node threaded like an assignment. -/
theorem pass_creates_no_fallback_node :
    buildOutput (.tree [.other []]) = some (some emptyProgGraph, none) ∧
    emptyProgGraph.number_of_nodes = 2 ∧
    emptyProgGraph.countWith ⟨"pass", "rect", "#ffffff", "filled"⟩ = 0 :=
  ⟨rfl, rfl, rfl⟩

/-- C1, amended: a statement of an unhandled kind is dispatched to
`generic_visit`, which creates no node and no edge for the statement
itself; the builder state is exactly the state obtained by visiting the
statement's nested statements in order, and an unhandled statement with
no nested statements (such as `pass` or `break`) leaves the builder
state completely unchanged. -/
theorem generic_visit_creates_no_node (children : List Stmt) (s : BuilderState) :
    visit (.other children) s = visitList children s ∧
    visit (.other []) s = s :=
  ⟨rfl, rfl⟩

/-- C2, counterexample: the builder's graph is a `networkx.DiGraph`,
which keeps at most one edge per ordered pair.  Taking the finished
graph of the empty program (which already has the fall-through edge
`(node_1, node_2, "")`) and adding a "Loop"-labelled edge between the
same ordered pair does not create a second edge: `edge_count` stays 1
and the single edge's label is overwritten to "Loop", so the two edges
do not coexist. -/
theorem same_pair_edges_do_not_coexist :
    buildOutput (.tree []) = some (some emptyProgGraph, none) ∧
    (emptyProgGraph.add_edge (nodeId 1) (nodeId 2) "Loop").number_of_edges = 1 ∧
    (emptyProgGraph.add_edge (nodeId 1) (nodeId 2) "Loop").edges =
      [(nodeId 1, nodeId 2, "Loop")] :=
  ⟨rfl, rfl, rfl⟩

theorem not_mem_add_edge_other_label {g : DiGraph} {u v l1 l2 : String}
    (hne : l1 ≠ l2) (hmem : (u, v, l1) ∈ g.edges) :
    (u, v, l1) ∉ (g.add_edge u v l2).edges := by
  intro hbad
  simp only [DiGraph.add_edge, ensureNode_edges] at hbad
  rw [if_pos (by
    simp only [List.any_eq_true, decide_eq_true_eq]
    exact ⟨(u, v, l1), hmem, rfl, rfl⟩)] at hbad
  obtain ⟨x, _, hxe⟩ := List.mem_map.mp hbad
  by_cases hxc : x.1 = u ∧ x.2.1 = v
  · rw [if_pos hxc] at hxe
    exact hne (congrArg (fun e => e.2.2) hxe).symm
  · rw [if_neg hxc] at hxe
    subst hxe
    exact hxc ⟨rfl, rfl⟩

/-- C2, amended: two calls to `add_edge` with the same ordered
`(source, target)` pair yield a single edge: the second call leaves the
edge count unchanged and overwrites the stored label with the later
one, and when the two labels differ the earlier edge is gone.  In
particular a "Loop" back-edge and an empty-labelled fall-through edge
between the same ordered pair cannot both be present. -/
theorem add_edge_same_pair_overwrites (g : DiGraph) (u v l1 l2 : String) :
    ((g.add_edge u v l1).add_edge u v l2).number_of_edges =
      (g.add_edge u v l1).number_of_edges ∧
    (u, v, l2) ∈ ((g.add_edge u v l1).add_edge u v l2).edges ∧
    (l1 ≠ l2 → (u, v, l1) ∉ ((g.add_edge u v l1).add_edge u v l2).edges) :=
  ⟨add_edge_length_of_mem l2 (mem_add_edge_self g u v l1),
   mem_add_edge_self _ u v l2,
   fun hne => not_mem_add_edge_other_label hne (mem_add_edge_self g u v l1)⟩

/-- Witness for the amended C2 theorem at a concrete instance: after
adding a fall-through edge and then a "Loop" edge between the same pair
on the empty graph, there is one edge, labelled "Loop", and the
fall-through edge is gone. -/
theorem add_edge_same_pair_overwrites_witness :
    ((DiGraph.empty.add_edge "a" "b" "").add_edge "a" "b" "Loop").number_of_edges =
      (DiGraph.empty.add_edge "a" "b" "").number_of_edges ∧
    ("a", "b", "Loop") ∈ ((DiGraph.empty.add_edge "a" "b" "").add_edge "a" "b" "Loop").edges ∧
    ("a", "b", "") ∉ ((DiGraph.empty.add_edge "a" "b" "").add_edge "a" "b" "Loop").edges := by
  have h := add_edge_same_pair_overwrites DiGraph.empty "a" "b" "" "Loop"
  exact ⟨h.1, h.2.1, h.2.2 (by decide)⟩

theorem mem_ensureNode_self (g : DiGraph) (id : String) :
    id ∈ (g.ensureNode id).nodes.map Prod.fst := by
  unfold DiGraph.ensureNode
  by_cases h : (g.nodes.any fun p => decide (p.1 = id)) = true
  · rw [if_pos h]
    exact (any_fst_eq_iff _ _).mp h
  · rw [if_neg h]; simp

theorem mem_ensureNode_of_mem {g : DiGraph} {x : String} (id : String)
    (h : x ∈ g.nodes.map Prod.fst) : x ∈ (g.ensureNode id).nodes.map Prod.fst := by
  unfold DiGraph.ensureNode
  split
  · exact h
  · simp only [List.map_append, List.mem_append]
    left; exact h

theorem add_edge_nodes_eq (g : DiGraph) (u v lbl : String) :
    (g.add_edge u v lbl).nodes = ((g.ensureNode u).ensureNode v).nodes := by
  simp only [DiGraph.add_edge]
  split <;> rfl

/-- C7, counterexample: on the builder's freshly initialised (empty)
graph, `add_edge` between two ids that are not in the graph does not
fail: it silently inserts both endpoints as attribute-less nodes and
records the edge.  This refutes the claim that such a call fails with
an `InvalidReference` error and creates no nodes. -/
theorem add_edge_unknown_ids_succeeds :
    initState.graph.nodes = [] ∧
    (initState.graph.add_edge "a" "b" "").nodes = [("a", none), ("b", none)] ∧
    (initState.graph.add_edge "a" "b" "").edges = [("a", "b", "")] :=
  ⟨rfl, rfl, rfl⟩

/-- C7, amended: `add_edge` never fails: whether or not the endpoint
ids are already known, after the call both endpoints are nodes of the
graph (missing ones get inserted silently, with no attributes) and the
edge with the requested label is present. -/
theorem add_edge_inserts_missing_endpoints (g : DiGraph) (u v lbl : String) :
    u ∈ (g.add_edge u v lbl).nodes.map Prod.fst ∧
    v ∈ (g.add_edge u v lbl).nodes.map Prod.fst ∧
    (u, v, lbl) ∈ (g.add_edge u v lbl).edges := by
  refine ⟨?_, ?_, mem_add_edge_self g u v lbl⟩
  · rw [add_edge_nodes_eq]
    exact mem_ensureNode_of_mem v (mem_ensureNode_self g u)
  · rw [add_edge_nodes_eq]
    exact mem_ensureNode_self _ v

/-- C8: when the parse step raises a `SyntaxError`, `build` returns the
failure pair (no graph, a non-empty "Syntax Error: ..." description)
and the freshly initialised builder's graph still has no node and no
edge. -/
theorem build_syntax_error_result (m : String) :
    buildFrom initState (.raises (.syntaxError m)) =
      .ok (initState, none, some ("Syntax Error: " ++ m)) ∧
    ("Syntax Error: " ++ m) ≠ "" ∧
    initState.graph.nodes = [] ∧ initState.graph.edges = [] := by
  refine ⟨rfl, ?_, rfl, rfl⟩
  intro h
  have hd := congrArg String.data h
  simp [String.data_append] at hd

/-- Witness for the C8 theorem at a concrete message. -/
theorem build_syntax_error_result_witness :
    buildFrom initState (.raises (.syntaxError "unmatched ')'")) =
      .ok (initState, none, some ("Syntax Error: " ++ "unmatched ')'")) ∧
    ("Syntax Error: " ++ "unmatched ')'") ≠ "" ∧
    initState.graph.nodes = [] ∧ initState.graph.edges = [] :=
  build_syntax_error_result "unmatched ')'"

/-- C9: `build` converts exactly the `SyntaxError` outcome of the parse
step into the `(None, message)` failure pair; an exception of any
other class raised by the parser (such as the `ValueError` for source
text containing a null byte) is not caught and escapes to the caller. -/
theorem build_catches_only_syntax_error (m v : String) (s : BuilderState) :
    buildFrom s (.raises (.syntaxError m)) =
      .ok (s, none, some ("Syntax Error: " ++ m)) ∧
    buildFrom s (.raises (.valueError v)) = .error (.valueError v) :=
  ⟨rfl, rfl⟩

/-- Witness for the C9 theorem at the null-byte message of CPython's
parser. -/
theorem build_catches_only_syntax_error_witness :
    buildFrom initState
        (.raises (.syntaxError "invalid syntax")) =
      .ok (initState, none, some ("Syntax Error: " ++ "invalid syntax")) ∧
    buildFrom initState
        (.raises (.valueError "source code string cannot contain null bytes")) =
      .error (.valueError "source code string cannot contain null bytes") :=
  build_catches_only_syntax_error "invalid syntax"
    "source code string cannot contain null bytes" initState

/-- C10: a statement of an unhandled kind that contains nested
statements contributes no node of its own; its nested statements are
visited in order, threaded into the sequential control flow exactly as
if they stood at the containing statement's position in the statement
list, and the resulting graph is the one obtained from visiting the
nested statements directly. -/
theorem generic_visit_threads_nested (pre cs post : List Stmt) (s : BuilderState) :
    visitList (pre ++ .other cs :: post) s = visitList (pre ++ (cs ++ post)) s ∧
    (visit (.other cs) s).graph = (visitList cs s).graph := by
  refine ⟨?_, rfl⟩
  rw [visitList_append, visitList_append, visitList_append]
  rfl

/-- Witness for the C10 theorem: an assignment nested in an unhandled
container statement (e.g. the body of a `for` or a function definition)
is threaded exactly as a top-level assignment between its neighbours. -/
theorem generic_visit_threads_nested_witness :
    visitList ([.assign "a = 1"] ++ .other [.assign "b = 2"] :: [.assign "c = 3"])
        initState =
      visitList ([.assign "a = 1"] ++ ([.assign "b = 2"] ++ [.assign "c = 3"]))
        initState ∧
    (visit (.other [.assign "b = 2"]) initState).graph =
      (visitList [.assign "b = 2"] initState).graph :=
  generic_visit_threads_nested [.assign "a = 1"] [.assign "b = 2"] [.assign "c = 3"]
    initState

/-- C6: after visiting a conditional the frontier is exactly the
true-branch exits followed by the false-branch exits, in that order;
and when the conditional has no `orelse` the false-branch exits are
exactly the singleton holding the predicate node (the node numbered
with the counter value at which the conditional was entered, plus one). -/
theorem if_merge_frontier (test : String) (body orelse : List Stmt) (s : BuilderState) :
    (visit (.ifStmt test body orelse) s).last_nodes =
      true_exits test body s ++ false_exits test body orelse s ∧
    false_exits test body [] s = [nodeId (s.counter + 1)] :=
  ⟨visit_ifStmt_frontier test body orelse s, rfl⟩

/-- Witness for the C6 theorem on `if x > 5: print('a') else: x = 0`
visited from a fresh post-START state: the merged frontier is the
true-branch node followed by the false-branch node. -/
theorem if_merge_frontier_witness :
    (visit (.ifStmt "x > 5" [.expr "print('a')"] [.assign "x = 0"])
        ⟨⟨[(nodeId 1, some startData)], []⟩, 1, [nodeId 1]⟩).last_nodes =
      true_exits "x > 5" [.expr "print('a')"]
          ⟨⟨[(nodeId 1, some startData)], []⟩, 1, [nodeId 1]⟩ ++
        false_exits "x > 5" [.expr "print('a')"] [.assign "x = 0"]
          ⟨⟨[(nodeId 1, some startData)], []⟩, 1, [nodeId 1]⟩ ∧
    false_exits "x > 5" [.expr "print('a')"] []
        ⟨⟨[(nodeId 1, some startData)], []⟩, 1, [nodeId 1]⟩ = [nodeId 2] :=
  if_merge_frontier "x > 5" [.expr "print('a')"] [.assign "x = 0"]
    ⟨⟨[(nodeId 1, some startData)], []⟩, 1, [nodeId 1]⟩

/-- C5: for every pre-test loop, after the body has been visited the
builder adds a "Loop"-labelled back-edge from every node of the current
frontier to the loop-predicate node and leaves the frontier as the
singleton holding the predicate; and concretely, for the program
`while x > 0: x = x - 1`, the finished graph has exactly one
"Loop"-labelled edge, it runs from the body's node (node_3,
"x = x - 1") to the while-predicate node (node_2, "while x > 0:"), and
the cyclomatic complexity is 2. -/
theorem while_loop_backedges (test : String) (body : List Stmt) (s : BuilderState) :
    ((∀ u ∈ (visitList body
          (predEntry s ("while " ++ test ++ ":") "diamond" "#F9E79F")).last_nodes,
        (u, nodeId (s.counter + 1), "Loop") ∈
          (visit (.whileStmt test body) s).graph.edges) ∧
      (visit (.whileStmt test body) s).last_nodes = [nodeId (s.counter + 1)]) ∧
    (buildOutput (.tree [.whileStmt "x > 0" [.assign "x = x - 1"]]) =
        some (some whileProgGraph, none) ∧
      whileProgGraph.edges.filter (fun e => e.2.2 = "Loop") =
        [(nodeId 3, nodeId 2, "Loop")] ∧
      cyclomaticComplexity whileProgGraph = 2) := by
  refine ⟨⟨?_, rfl⟩, rfl, rfl, rfl⟩
  intro u hu
  rw [visit_whileStmt_eq]
  exact addEdgesTo_mem _ (nodeId (s.counter + 1)) "Loop" u hu

/-- Witness for the C5 theorem: for `while True:` with an empty body
list the frontier after the body is the predicate itself, so the
theorem yields the self-loop back-edge concretely. -/
theorem while_loop_backedges_witness :
    (nodeId 1, nodeId 1, "Loop") ∈
      (visit (.whileStmt "True" []) initState).graph.edges :=
  (while_loop_backedges "True" [] initState).1.1 (nodeId 1) (by decide)

/-- C3: when a pre-test loop's body ends with a conditional, the
"Loop"-labelled back-edges into the loop predicate originate from every
node of the inner conditional's merged exit frontier — the true-branch
exits together with the false-branch exits, not just one arm. -/
theorem loop_backedge_from_branch_union (wtest : String) (pre : List Stmt)
    (itest : String) (ibody ielse : List Stmt) (s : BuilderState) :
    ∀ u ∈ true_exits itest ibody
          (visitList pre (predEntry s ("while " ++ wtest ++ ":") "diamond" "#F9E79F")) ++
        false_exits itest ibody ielse
          (visitList pre (predEntry s ("while " ++ wtest ++ ":") "diamond" "#F9E79F")),
      (u, nodeId (s.counter + 1), "Loop") ∈
        (visit (.whileStmt wtest (pre ++ [.ifStmt itest ibody ielse])) s).graph.edges := by
  intro u hu
  rw [visit_whileStmt_eq]
  apply addEdgesTo_mem
  rw [visitList_append]
  show u ∈ (visit (.ifStmt itest ibody ielse)
    (visitList pre (predEntry s ("while " ++ wtest ++ ":") "diamond" "#F9E79F"))).last_nodes
  rw [visit_ifStmt_frontier]
  exact hu

/-- Witness for the C3 theorem on `while c: if t: x = 1 else: y = 2`:
back-edges from the true-branch node (node_3) and from the false-branch
node (node_4) into the while predicate (node_1) are both present. -/
theorem loop_backedge_from_branch_union_witness :
    (nodeId 3, nodeId 1, "Loop") ∈
      (visit (.whileStmt "c" ([] ++ [.ifStmt "t" [.assign "x = 1"] [.assign "y = 2"]]))
        initState).graph.edges ∧
    (nodeId 4, nodeId 1, "Loop") ∈
      (visit (.whileStmt "c" ([] ++ [.ifStmt "t" [.assign "x = 1"] [.assign "y = 2"]]))
        initState).graph.edges :=
  ⟨loop_backedge_from_branch_union "c" [] "t" [.assign "x = 1"] [.assign "y = 2"]
      initState (nodeId 3) (by decide),
   loop_backedge_from_branch_union "c" [] "t" [.assign "x = 1"] [.assign "y = 2"]
      initState (nodeId 4) (by decide)⟩

/-! ## The START/STOP invariant (C4) -/

/-- The invariant the builder maintains between statement visits: the
node ids are exactly `node_1 ... node_<counter>` in insertion order,
the first node is the START sentinel and every other node so far is a
"rect" statement node or a "diamond" predicate node, every edge runs
from some existing node to an existing node other than `node_1`, and
the frontier consists of existing nodes. -/
structure BInv (s : BuilderState) : Prop where
  cpos : 1 ≤ s.counter
  ids : s.graph.nodes.map Prod.fst = (List.range s.counter).map (fun i => nodeId (i + 1))
  hd : s.graph.nodes.head? = some (nodeId 1, some startData)
  tl : ∀ p ∈ s.graph.nodes.tail, ∃ d, p.2 = some d ∧ (d.shape = "rect" ∨ d.shape = "diamond")
  esrc : ∀ e ∈ s.graph.edges, ∃ k, 1 ≤ k ∧ k ≤ s.counter ∧ e.1 = nodeId k
  etgt : ∀ e ∈ s.graph.edges, ∃ k, 2 ≤ k ∧ k ≤ s.counter ∧ e.2.1 = nodeId k
  fr : ∀ u ∈ s.last_nodes, ∃ k, 1 ≤ k ∧ k ≤ s.counter ∧ u = nodeId k

theorem BInv.mem_ids {s : BuilderState} (h : BInv s) {k : Nat}
    (h1 : 1 ≤ k) (h2 : k ≤ s.counter) :
    nodeId k ∈ s.graph.nodes.map Prod.fst := by
  rw [h.ids]
  refine List.mem_map.mpr ⟨k - 1, List.mem_range.mpr (by omega), ?_⟩
  congr 1
  omega

theorem BInv.fresh {s : BuilderState} (h : BInv s) :
    nodeId (s.counter + 1) ∉ s.graph.nodes.map Prod.fst := by
  rw [h.ids]
  intro hmem
  obtain ⟨i, hi, hid⟩ := List.mem_map.mp hmem
  have := nodeId_inj (Nat.succ_pos i) (Nat.succ_pos _) hid
  rw [List.mem_range] at hi
  omega

theorem BInv.nodes_ne_nil {s : BuilderState} (h : BInv s) : s.graph.nodes ≠ [] := by
  intro hnil
  have hids := h.ids
  rw [hnil] at hids
  have hlen := congrArg List.length hids
  have hc := h.cpos
  simp at hlen
  omega

theorem BInv.set_frontier {s : BuilderState} (h : BInv s) {L : List String}
    (hL : ∀ u ∈ L, ∃ k, 1 ≤ k ∧ k ≤ s.counter ∧ u = nodeId k) :
    BInv { s with last_nodes := L } :=
  ⟨h.cpos, h.ids, h.hd, h.tl, h.esrc, h.etgt, hL⟩

theorem new_node_nodes {s : BuilderState} (h : BInv s) (lbl sh col : String) :
    (new_node s lbl sh col).2.graph.nodes =
      s.graph.nodes ++ [(nodeId (s.counter + 1), some ⟨lbl, sh, col, "filled"⟩)] := by
  show (s.graph.add_node (nodeId (s.counter + 1)) ⟨lbl, sh, col, "filled"⟩).nodes = _
  unfold DiGraph.add_node
  rw [if_neg]
  intro hc
  exact h.fresh ((any_fst_eq_iff _ _).mp hc)

theorem new_node_edges (s : BuilderState) (lbl sh col : String) :
    (new_node s lbl sh col).2.graph.edges = s.graph.edges := by
  show (s.graph.add_node _ _).edges = s.graph.edges
  unfold DiGraph.add_node
  split <;> rfl

theorem new_node_counter (s : BuilderState) (lbl sh col : String) :
    (new_node s lbl sh col).2.counter = s.counter + 1 := rfl

theorem new_node_last_nodes (s : BuilderState) (lbl sh col : String) :
    (new_node s lbl sh col).2.last_nodes = s.last_nodes := rfl

theorem new_node_fst (s : BuilderState) (lbl sh col : String) :
    (new_node s lbl sh col).1 = nodeId (s.counter + 1) := rfl

theorem new_node_inv {s : BuilderState} (h : BInv s) (lbl col : String) {sh : String}
    (hsh : sh = "rect" ∨ sh = "diamond") :
    BInv (new_node s lbl sh col).2 := by
  obtain ⟨p, rest, hcons⟩ : ∃ p rest, s.graph.nodes = p :: rest := by
    cases hn : s.graph.nodes with
    | nil => exact absurd hn h.nodes_ne_nil
    | cons p rest => exact ⟨p, rest, rfl⟩
  have hnodes := new_node_nodes h lbl sh col
  have hc := h.cpos
  refine ⟨?_, ?_, ?_, ?_, ?_, ?_, ?_⟩
  · rw [new_node_counter]; omega
  · show (new_node s lbl sh col).2.graph.nodes.map Prod.fst =
      (List.range (new_node s lbl sh col).2.counter).map (fun i => nodeId (i + 1))
    rw [new_node_counter, hnodes, List.map_append, h.ids, List.range_succ,
      List.map_append]
    simp
  · show (new_node s lbl sh col).2.graph.nodes.head? = some (nodeId 1, some startData)
    rw [hnodes, hcons]
    have hh := h.hd
    rw [hcons] at hh
    simpa using hh
  · show ∀ p' ∈ (new_node s lbl sh col).2.graph.nodes.tail, _
    rw [hnodes, hcons]
    intro q hq
    simp only [List.cons_append, List.tail_cons, List.mem_append, List.mem_singleton] at hq
    rcases hq with hq | hq
    · exact h.tl q (by rw [hcons]; simpa using hq)
    · exact ⟨⟨lbl, sh, col, "filled"⟩, by rw [hq], hsh⟩
  · intro e he
    rw [new_node_edges] at he
    obtain ⟨k, hk1, hk2, hk3⟩ := h.esrc e he
    exact ⟨k, hk1, by rw [new_node_counter]; omega, hk3⟩
  · intro e he
    rw [new_node_edges] at he
    obtain ⟨k, hk1, hk2, hk3⟩ := h.etgt e he
    exact ⟨k, hk1, by rw [new_node_counter]; omega, hk3⟩
  · intro u hu
    rw [new_node_last_nodes] at hu
    obtain ⟨k, hk1, hk2, hk3⟩ := h.fr u hu
    exact ⟨k, hk1, by rw [new_node_counter]; omega, hk3⟩

theorem addEdgesTo_inv {s : BuilderState} (h : BInv s) {t : Nat} (lbl : String)
    (h2 : 2 ≤ t) (h3 : t ≤ s.counter) :
    BInv (addEdgesTo s (nodeId t) lbl) := by
  have hnodes : (addEdgesTo s (nodeId t) lbl).graph.nodes = s.graph.nodes := by
    refine addEdgesTo_nodes s (nodeId t) lbl (h.mem_ids (by omega) h3) ?_
    intro u hu
    obtain ⟨k, hk1, hk2, hk3⟩ := h.fr u hu
    rw [hk3]
    exact h.mem_ids hk1 hk2
  refine ⟨h.cpos, ?_, ?_, ?_, ?_, ?_, ?_⟩
  · show (addEdgesTo s (nodeId t) lbl).graph.nodes.map Prod.fst = _
    rw [hnodes]
    exact h.ids
  · show (addEdgesTo s (nodeId t) lbl).graph.nodes.head? = _
    rw [hnodes]
    exact h.hd
  · show ∀ p ∈ (addEdgesTo s (nodeId t) lbl).graph.nodes.tail, _
    rw [hnodes]
    exact h.tl
  · intro e he
    rcases addEdgesTo_cases s (nodeId t) lbl e he with hold | ⟨u, hu, he2⟩
    · exact h.esrc e hold
    · obtain ⟨k, hk1, hk2, hk3⟩ := h.fr u hu
      exact ⟨k, hk1, hk2, by rw [he2, hk3]⟩
  · intro e he
    rcases addEdgesTo_cases s (nodeId t) lbl e he with hold | ⟨u, hu, he2⟩
    · exact h.etgt e hold
    · exact ⟨t, h2, h3, by rw [he2]⟩
  · exact h.fr

theorem visitLinear_inv {s : BuilderState} (h : BInv s) (src : String) :
    BInv (visitLinear src s) ∧ s.counter ≤ (visitLinear src s).counter := by
  have h1 : BInv (new_node s src "rect" "#ffffff").2 :=
    new_node_inv h src "#ffffff" (Or.inl rfl)
  have h2 : BInv (addEdgesTo (new_node s src "rect" "#ffffff").2
      (nodeId (s.counter + 1)) "") := by
    refine addEdgesTo_inv h1 "" (by have := h.cpos; omega) ?_
    rw [new_node_counter]
  have h3 : BInv (visitLinear src s) := by
    show BInv { addEdgesTo (new_node s src "rect" "#ffffff").2
      (nodeId (s.counter + 1)) "" with last_nodes := [nodeId (s.counter + 1)] }
    refine h2.set_frontier ?_
    intro u hu
    simp only [List.mem_singleton] at hu
    exact ⟨s.counter + 1, by omega, le_of_eq (by rw [addEdgesTo_counter, new_node_counter]),
      hu⟩
  exact ⟨h3, le_of_eq rfl |>.trans (by
    show s.counter ≤ s.counter + 1
    omega)⟩

theorem predEntry_inv {s : BuilderState} (h : BInv s) (lab col : String) :
    BInv (predEntry s lab "diamond" col) ∧
    (predEntry s lab "diamond" col).counter = s.counter + 1 ∧
    (predEntry s lab "diamond" col).last_nodes = [nodeId (s.counter + 1)] := by
  have h1 : BInv (new_node s lab "diamond" col).2 := new_node_inv h lab col (Or.inr rfl)
  have h2 : BInv (addEdgesTo (new_node s lab "diamond" col).2
      (nodeId (s.counter + 1)) "") :=
    addEdgesTo_inv h1 "" (by have := h.cpos; omega) (by rw [new_node_counter])
  refine ⟨?_, rfl, rfl⟩
  show BInv { addEdgesTo (new_node s lab "diamond" col).2 (nodeId (s.counter + 1)) ""
    with last_nodes := [nodeId (s.counter + 1)] }
  refine h2.set_frontier ?_
  intro u hu
  simp only [List.mem_singleton] at hu
  exact ⟨s.counter + 1, by omega,
    le_of_eq (by rw [addEdgesTo_counter, new_node_counter]), hu⟩

mutual

theorem visit_inv (st : Stmt) (s : BuilderState) (h : BInv s) :
    BInv (visit st s) ∧ s.counter ≤ (visit st s).counter := by
  match st with
  | .assign src => exact visitLinear_inv h src
  | .expr src => exact visitLinear_inv h src
  | .other children => exact visitList_inv children s h
  | .whileStmt test body =>
      obtain ⟨hE, hEc, hEl⟩ := predEntry_inv h ("while " ++ test ++ ":") "#F9E79F"
      obtain ⟨h3, hm3⟩ :=
        visitList_inv body (predEntry s ("while " ++ test ++ ":") "diamond" "#F9E79F") hE
      have hc3 : s.counter + 1 ≤
          (visitList body (predEntry s ("while " ++ test ++ ":") "diamond" "#F9E79F")).counter := by
        rw [← hEc]; exact hm3
      have h4 : BInv (addEdgesTo
          (visitList body (predEntry s ("while " ++ test ++ ":") "diamond" "#F9E79F"))
          (nodeId (s.counter + 1)) "Loop") :=
        addEdgesTo_inv h3 "Loop" (by have := h.cpos; omega) hc3
      constructor
      · show BInv { addEdgesTo
          (visitList body (predEntry s ("while " ++ test ++ ":") "diamond" "#F9E79F"))
          (nodeId (s.counter + 1)) "Loop" with last_nodes := [nodeId (s.counter + 1)] }
        refine h4.set_frontier ?_
        intro u hu
        simp only [List.mem_singleton] at hu
        exact ⟨s.counter + 1, by omega, by rw [addEdgesTo_counter]; exact hc3, hu⟩
      · show s.counter ≤ (addEdgesTo
          (visitList body (predEntry s ("while " ++ test ++ ":") "diamond" "#F9E79F"))
          (nodeId (s.counter + 1)) "Loop").counter
        rw [addEdgesTo_counter]
        omega
  | .ifStmt test body orelse =>
      obtain ⟨hE, hEc, hEl⟩ := predEntry_inv h ("if " ++ test ++ ":") "#AED6F1"
      obtain ⟨h3, hm3⟩ :=
        visitList_inv body (predEntry s ("if " ++ test ++ ":") "diamond" "#AED6F1") hE
      have hc3 : s.counter + 1 ≤
          (visitList body (predEntry s ("if " ++ test ++ ":") "diamond" "#AED6F1")).counter := by
        rw [← hEc]; exact hm3
      match orelse with
      | [] =>
          constructor
          · show BInv { visitList body (predEntry s ("if " ++ test ++ ":") "diamond" "#AED6F1")
              with last_nodes :=
                (visitList body (predEntry s ("if " ++ test ++ ":") "diamond" "#AED6F1")).last_nodes
                  ++ [nodeId (s.counter + 1)] }
            refine h3.set_frontier ?_
            intro u hu
            rcases List.mem_append.mp hu with hu | hu
            · exact h3.fr u hu
            · simp only [List.mem_singleton] at hu
              exact ⟨s.counter + 1, by omega, hc3, hu⟩
          · show s.counter ≤
              (visitList body (predEntry s ("if " ++ test ++ ":") "diamond" "#AED6F1")).counter
            omega
      | o :: os =>
          have h4 : BInv { visitList body
              (predEntry s ("if " ++ test ++ ":") "diamond" "#AED6F1") with
              last_nodes := [nodeId (s.counter + 1)] } := by
            refine h3.set_frontier ?_
            intro u hu
            simp only [List.mem_singleton] at hu
            exact ⟨s.counter + 1, by omega, hc3, hu⟩
          obtain ⟨h5, hm5⟩ := visitList_inv (o :: os)
            { visitList body (predEntry s ("if " ++ test ++ ":") "diamond" "#AED6F1") with
              last_nodes := [nodeId (s.counter + 1)] } h4
          constructor
          · show BInv { visitList (o :: os)
              { visitList body (predEntry s ("if " ++ test ++ ":") "diamond" "#AED6F1") with
                last_nodes := [nodeId (s.counter + 1)] } with
              last_nodes :=
                (visitList body (predEntry s ("if " ++ test ++ ":") "diamond" "#AED6F1")).last_nodes
                ++ (visitList (o :: os)
                  { visitList body (predEntry s ("if " ++ test ++ ":") "diamond" "#AED6F1") with
                    last_nodes := [nodeId (s.counter + 1)] }).last_nodes }
            refine h5.set_frontier ?_
            intro u hu
            rcases List.mem_append.mp hu with hu | hu
            · obtain ⟨k, hk1, hk2, hk3⟩ := h3.fr u hu
              exact ⟨k, hk1, le_trans hk2 hm5, hk3⟩
            · exact h5.fr u hu
          · show s.counter ≤ (visitList (o :: os)
              { visitList body (predEntry s ("if " ++ test ++ ":") "diamond" "#AED6F1") with
                last_nodes := [nodeId (s.counter + 1)] }).counter
            have : s.counter ≤ s.counter + 1 := by omega
            exact this.trans (hc3.trans hm5)

theorem visitList_inv (l : List Stmt) (s : BuilderState) (h : BInv s) :
    BInv (visitList l s) ∧ s.counter ≤ (visitList l s).counter := by
  match l with
  | [] => exact ⟨h, le_rfl⟩
  | st :: rest =>
      obtain ⟨h1, hm1⟩ := visit_inv st s h
      obtain ⟨h2, hm2⟩ := visitList_inv rest (visit st s) h1
      exact ⟨h2, le_trans hm1 hm2⟩

end

/-- The builder state right after START insertion in `build`. -/
def startState : BuilderState :=
  { (new_node initState "START" "ellipse" "#DAF7A6").2 with last_nodes := [nodeId 1] }

/-- The builder state at the end of a successful `build` run: body
visited, STOP inserted, frontier wired into STOP. -/
def finalState (body : List Stmt) : BuilderState :=
  addEdgesTo (new_node (visitList body startState) "STOP" "ellipse" "#FFC300").2
    (nodeId ((visitList body startState).counter + 1)) ""

theorem buildFrom_tree_eq (body : List Stmt) :
    buildFrom initState (.tree body) =
      .ok (finalState body, some (finalState body).graph, none) := rfl

theorem startState_inv : BInv startState := by
  refine ⟨le_rfl, rfl, rfl, ?_, ?_, ?_, ?_⟩
  · intro p hp; simp [startState, new_node, initState, DiGraph.empty, DiGraph.add_node] at hp
  · intro e he; simp [startState, new_node, initState, DiGraph.empty, DiGraph.add_node] at he
  · intro e he; simp [startState, new_node, initState, DiGraph.empty, DiGraph.add_node] at he
  · intro u hu
    simp only [startState, List.mem_singleton] at hu
    exact ⟨1, le_rfl, le_rfl, hu⟩

theorem filter_styled_tail_nil {t : List (String × Option NodeData)}
    (htl : ∀ p ∈ t, ∃ d, p.2 = some d ∧ (d.shape = "rect" ∨ d.shape = "diamond"))
    {d0 : NodeData} (hd0 : d0.shape = "ellipse") :
    t.filter (fun p => p.2 = some d0) = [] := by
  rw [List.filter_eq_nil_iff]
  intro p hp
  obtain ⟨d, hpd, hsh⟩ := htl p hp
  simp only [hpd, decide_eq_true_eq, Option.some.injEq]
  intro he
  rw [he, hd0] at hsh
  rcases hsh with hc | hc <;> exact absurd hc (by decide)

/-- C4: for every syntactically valid input, the finished graph has
exactly one node carrying the START sentinel attributes and exactly one
carrying the STOP sentinel attributes; the START node has zero incoming
edges and the STOP node has zero outgoing edges. -/
theorem build_unique_start_stop (body : List Stmt) :
    ∃ st g, buildFrom initState (.tree body) = .ok (st, some g, none) ∧
      g.countWith startData = 1 ∧
      g.countWith stopData = 1 ∧
      (∀ i, (i, some startData) ∈ g.nodes → g.in_degree i = 0) ∧
      (∀ i, (i, some stopData) ∈ g.nodes → g.out_degree i = 0) := by
  obtain ⟨h2, hm2⟩ := visitList_inv body startState startState_inv
  have hc2 : 1 ≤ (visitList body startState).counter := hm2
  set S2 := visitList body startState with hS2def
  set stopId := nodeId (S2.counter + 1) with hstopdef
  set S3 := (new_node S2 "STOP" "ellipse" "#FFC300").2 with hS3def
  set S4 := addEdgesTo S3 stopId "" with hS4def
  have hfin : finalState body = S4 := rfl
  have hn3 : S3.graph.nodes = S2.graph.nodes ++ [(stopId, some stopData)] :=
    new_node_nodes h2 "STOP" "ellipse" "#FFC300"
  have he3 : S3.graph.edges = S2.graph.edges := new_node_edges S2 "STOP" "ellipse" "#FFC300"
  have hmemfr : ∀ u ∈ S2.last_nodes, u ∈ S3.graph.nodes.map Prod.fst := by
    intro u hu
    obtain ⟨k, hk1, hk2, hk3⟩ := h2.fr u hu
    rw [hn3, List.map_append, List.mem_append]
    left; rw [hk3]; exact h2.mem_ids hk1 hk2
  have hstopmem : stopId ∈ S3.graph.nodes.map Prod.fst := by
    rw [hn3, List.map_append, List.mem_append]; right; simp
  have hn4 : S4.graph.nodes = S3.graph.nodes :=
    addEdgesTo_nodes S3 stopId "" hstopmem hmemfr
  have hedge4 : ∀ e ∈ S4.graph.edges,
      e ∈ S2.graph.edges ∨ ∃ u ∈ S2.last_nodes, e = (u, stopId, "") := by
    intro e he
    rcases addEdgesTo_cases S3 stopId "" e he with h | h
    · left; rwa [he3] at h
    · right; exact h
  obtain ⟨t2, ht2⟩ : ∃ t, S2.graph.nodes = (nodeId 1, some startData) :: t := by
    have hh := h2.hd
    cases hnn : S2.graph.nodes with
    | nil => rw [hnn] at hh; simp at hh
    | cons x t =>
        rw [hnn] at hh
        simp only [List.head?_cons, Option.some.injEq] at hh
        exact ⟨t, by rw [hh]⟩
  have htl2 : ∀ p ∈ t2, ∃ d, p.2 = some d ∧ (d.shape = "rect" ∨ d.shape = "diamond") := by
    intro p hp
    exact h2.tl p (by rw [ht2]; simpa using hp)
  have hnodes4 : S4.graph.nodes =
      (nodeId 1, some startData) :: (t2 ++ [(stopId, some stopData)]) := by
    rw [hn4, hn3, ht2, List.cons_append]
  have hfil_in : S4.graph.edges.filter (fun e => e.2.1 = nodeId 1) = [] := by
    rw [List.filter_eq_nil_iff]
    intro e he
    simp only [decide_eq_true_eq]
    rcases hedge4 e he with hold | ⟨u, hu, he2⟩
    · obtain ⟨k, hk1, hk2, hk3⟩ := h2.etgt e hold
      rw [hk3]
      exact nodeId_ne (by omega) (by omega) (by omega)
    · rw [he2]
      exact nodeId_ne (by omega) (by omega) (by omega)
  have hfil_out : S4.graph.edges.filter (fun e => e.1 = stopId) = [] := by
    rw [List.filter_eq_nil_iff]
    intro e he
    simp only [decide_eq_true_eq]
    rcases hedge4 e he with hold | ⟨u, hu, he2⟩
    · obtain ⟨k, hk1, hk2, hk3⟩ := h2.esrc e hold
      rw [hk3]
      exact nodeId_ne (by omega) (by omega) (by omega)
    · obtain ⟨k, hk1, hk2, hk3⟩ := h2.fr u hu
      rw [he2]
      show u ≠ stopId
      rw [hk3]
      exact nodeId_ne (by omega) (by omega) (by omega)
  refine ⟨finalState body, (finalState body).graph, buildFrom_tree_eq body, ?_, ?_, ?_, ?_⟩
  · rw [hfin]
    show (S4.graph.nodes.filter (fun p => p.2 = some startData)).length = 1
    rw [hnodes4, List.filter_cons_of_pos (by decide), List.filter_append,
      filter_styled_tail_nil htl2 rfl]
    rfl
  · rw [hfin]
    show (S4.graph.nodes.filter (fun p => p.2 = some stopData)).length = 1
    rw [hnodes4, List.filter_cons_of_neg (by decide), List.filter_append,
      filter_styled_tail_nil htl2 rfl]
    rfl
  · rw [hfin]
    intro i hi
    rw [hnodes4] at hi
    rcases List.mem_cons.mp hi with hh | hh
    · have hi1 : i = nodeId 1 := congrArg Prod.fst hh
      subst hi1
      show (S4.graph.edges.filter (fun e => e.2.1 = nodeId 1)).length = 0
      rw [hfil_in]
      rfl
    · rcases List.mem_append.mp hh with hh2 | hh2
      · obtain ⟨d, hd1, hd2⟩ := htl2 _ hh2
        have hds : startData = d := by simpa using hd1
        rcases hd2 with hc | hc <;> rw [← hds] at hc <;> exact absurd hc (by decide)
      · exact ((by decide : ¬(some startData = (some stopData : Option NodeData)))
          (congrArg Prod.snd (List.mem_singleton.mp hh2))).elim
  · rw [hfin]
    intro i hi
    rw [hnodes4] at hi
    rcases List.mem_cons.mp hi with hh | hh
    · exact ((by decide : ¬(some stopData = (some startData : Option NodeData)))
        (congrArg Prod.snd hh)).elim
    · rcases List.mem_append.mp hh with hh2 | hh2
      · obtain ⟨d, hd1, hd2⟩ := htl2 _ hh2
        have hds : stopData = d := by simpa using hd1
        rcases hd2 with hc | hc <;> rw [← hds] at hc <;> exact absurd hc (by decide)
      · have hi1 : i = stopId := congrArg Prod.fst (List.mem_singleton.mp hh2)
        subst hi1
        show (S4.graph.edges.filter (fun e => e.1 = stopId)).length = 0
        rw [hfil_out]
        rfl

/-- Witness for the C4 theorem at the program `x = 10`. -/
theorem build_unique_start_stop_witness :
    ∃ st g, buildFrom initState (.tree [.assign "x = 10"]) = .ok (st, some g, none) ∧
      g.countWith startData = 1 ∧
      g.countWith stopData = 1 ∧
      (∀ i, (i, some startData) ∈ g.nodes → g.in_degree i = 0) ∧
      (∀ i, (i, some stopData) ∈ g.nodes → g.out_degree i = 0) :=
  build_unique_start_stop [.assign "x = 10"]
